import Mathlib

/-!
Shallow embedding of the JobSphere backend core (raw-SQL model layer,
phone normalizer, newsletter broadcaster) and proofs about it.

Conventions used throughout:
* JavaScript loosely-typed values are modelled by `JSVal`; a JS argument
  that may be `undefined` is modelled by `JSArg`.
* JS strings are modelled as `List Char`.
* Database timestamps are modelled as integers counting hours
  (`NOW() - INTERVAL '24 hours'` becomes `now - 24`).
* Opaque UUIDs are modelled as `Nat`.
-/

namespace JobSphere

/-- Values a JavaScript expression in this codebase can take at the
points we model: `null`, strings, integers and booleans. -/
inductive JSVal where
  | vNull : JSVal
  | vStr : String → JSVal
  | vNum : Int → JSVal
  | vBool : Bool → JSVal
deriving DecidableEq, Repr

/-- A JavaScript value position that may additionally be `undefined`
(`Object.entries` exposes keys whose value is `undefined`; the update
builders skip exactly those). -/
inductive JSArg where
  | undef : JSArg
  | val : JSVal → JSArg
deriving DecidableEq, Repr

/-- Input to the phone utilities: `typeof phone === "string" ? ... : ...`
distinguishes strings from numbers. -/
inductive JSPhone where
  | str : List Char → JSPhone
  | num : Int → JSPhone
deriving DecidableEq, Repr

/-- JS truthiness of a phone argument: the empty string and the number 0
are the falsy inhabitants of our model (`if (!phone)`). -/
def jsFalsyPhone : JSPhone → Bool
  | .str s => s.isEmpty
  | .num n => n == 0

/-- Numeric value of a decimal digit character. -/
def digitVal (c : Char) : Nat := c.toNat - 48

/-- Digit-prefix part of JS `parseInt`: the longest leading run of
decimal digits, `NaN` (here `none`) when that run is empty. -/
def jsParseIntCore (l : List Char) : Option Nat :=
  let ds := l.takeWhile (fun c => c.isDigit)
  if ds.isEmpty then none
  else some (ds.foldl (fun a c => 10 * a + digitVal c) 0)

/-- Model of JS `parseInt(s)` (base 10): skip leading whitespace, accept
an optional sign, then parse the longest decimal-digit prefix; `NaN`
(`none`) when no digit follows.  (The hexadecimal `0x` special case of
`parseInt` is not modelled; no input considered here starts with `0x`.) -/
def jsParseInt (s : List Char) : Option Int :=
  match s.dropWhile (fun c => c.isWhitespace) with
  | [] => none
  | c :: rest =>
    if c = '-' then (jsParseIntCore rest).map (fun n => -(n : Int))
    else if c = '+' then (jsParseIntCore rest).map (fun n => (n : Int))
    else (jsParseIntCore (c :: rest)).map (fun n => (n : Int))

/-- Fuel-driven decimal digit expansion, most significant digit first
(`Number.prototype.toString` for non-negative integers).  The fuel is
always instantiated with the number itself, which is more than enough. -/
def toDecDigitsGo : Nat → Nat → List Nat
  | 0, n => [n % 10]
  | fuel + 1, n => if n < 10 then [n] else toDecDigitsGo fuel (n / 10) ++ [n % 10]

/-- Decimal digits of `n`, most significant first (`n.toString()`). -/
def toDecDigits (n : Nat) : List Nat := toDecDigitsGo n n

/-- Numeric value of a most-significant-first digit list (the value
`parseInt` computes from a digit string). -/
def valOfDigits (l : List Nat) : Nat := l.foldl (fun a d => 10 * a + d) 0

/-- Continuation of `convertPhoneToNumber` after the `parseInt`
coercion: reject `NaN` (`none`) and non-positive values, then require
`phoneNumber.toString()` to match `/^[6-9]\d{9}$/` — exactly 10 digits
with leading digit 6–9 (the digits of a positive integer are
automatically `\d`). -/
def convertParsed : Option Int → Except String Int
  | none => .error "Please provide a valid phone number (digits only)"
  | some phoneNumber =>
    if phoneNumber ≤ 0 then
      .error "Please provide a valid phone number (digits only)"
    else
      let phoneStr := toDecDigits phoneNumber.toNat
      if phoneStr.length = 10 ∧ 6 ≤ phoneStr.headD 0 ∧ phoneStr.headD 0 ≤ 9 then
        .ok phoneNumber
      else
        .error "Invalid Indian phone number. It must be 10 digits and start with 6, 7, 8, or 9."

/-- Model of `convertPhoneToNumber` from `backend/utils/phoneUtils.js`:
reject falsy input, coerce strings with `parseInt`, then validate
through `convertParsed`. -/
def convertPhoneToNumber (phone : JSPhone) : Except String Int :=
  if jsFalsyPhone phone then .error "Phone number is required"
  else convertParsed (match phone with | .str s => jsParseInt s | .num n => some n)

/-- Model of `safeConvertPhoneToNumber`: the strict parser with the
thrown error turned into `null`. -/
def safeConvertPhoneToNumber (phone : JSPhone) : Option Int :=
  match convertPhoneToNumber phone with
  | .ok n => some n
  | .error _ => none

/-- Model of `isValidPhoneNumber`: `true` exactly when the strict parser
does not throw. -/
def isValidPhoneNumber (phone : JSPhone) : Bool :=
  match convertPhoneToNumber phone with
  | .ok _ => true
  | .error _ => false

/-- Model of `phone.toString()` as used by `formatPhoneForDisplay`. -/
def jsPhoneToString : JSPhone → List Char
  | .str s => s
  | .num n =>
      if n < 0 then '-' :: (toDecDigits n.natAbs).map Nat.digitChar
      else (toDecDigits n.toNat).map Nat.digitChar

/-- Model of `formatPhoneForDisplay`: 10 digits become the grouped
national format, 11 digits starting with `1` the country-coded format,
any other length of at least 10 the generic international format, and
everything shorter passes through unchanged. -/
def formatPhoneForDisplay (phone : JSPhone) : List Char :=
  let phoneStr := jsPhoneToString phone
  if phoneStr.length = 10 then
    '(' :: phoneStr.take 3 ++ ')' :: ' ' :: (phoneStr.drop 3).take 3 ++ '-' :: phoneStr.drop 6
  else if phoneStr.length = 11 ∧ phoneStr.head? = some '1' then
    '+' :: '1' :: ' ' :: '(' :: (phoneStr.drop 1).take 3 ++ ')' :: ' ' ::
      (phoneStr.drop 4).take 3 ++ '-' :: phoneStr.drop 7
  else if 10 ≤ phoneStr.length then
    '+' :: phoneStr.take (phoneStr.length - 10) ++ ' ' ::
      (phoneStr.drop (phoneStr.length - 10)).take 4 ++ ' ' :: phoneStr.drop (phoneStr.length - 6)
  else phoneStr

/-- Model of `parseFormattedPhone`: strip every non-digit character
(`replace(/[^0-9]/g, "")`) and re-validate through the strict parser. -/
def parseFormattedPhone (formattedPhone : List Char) : Except String Int :=
  convertPhoneToNumber (.str (formattedPhone.filter (fun c => c.isDigit)))

/-- Insert `x` in front of the first element with a strictly smaller key
(descending insertion sort step). -/
def insertDescBy {α : Type} (key : α → Int) (x : α) : List α → List α
  | [] => [x]
  | y :: ys => if key y < key x then x :: y :: ys else y :: insertDescBy key x ys

/-- Sort a list by `key` in descending order (models `ORDER BY ... DESC`;
only the multiset of rows matters to the claims below). -/
def sortDescBy {α : Type} (key : α → Int) (l : List α) : List α :=
  l.foldr (insertDescBy key) []

/-- A row of the `users` table, with the storage-side (snake-case) field
names from the initialization script. -/
structure UserRow where
  id : Nat
  name : String
  email : String
  phone : Int
  address : String
  first_niche : Option String
  second_niche : Option String
  third_niche : Option String
  password : String
  resume_public_id : Option String
  resume_url : Option String
  cover_letter : Option String
  role : String
  created_at : Int
  updated_at : Int
deriving DecidableEq, Repr

/-- A nullable text column as seen from JavaScript. -/
def optVal : Option String → JSVal
  | none => JSVal.vNull
  | some s => JSVal.vStr s

namespace UserModel

/-- Model of `UserModel.formatUser`: the snake-to-camel field translation
applied to a stored row, password retained (`// Keep for authentication,
remove in responses`).  The object is modelled as its field list; the
attached `getJWTToken` closure is behaviour, not data, and is omitted.
The `if (!user) return null` guard is modelled by only applying the
formatter to present rows. -/
def formatUser (u : UserRow) : List (String × JSVal) :=
  [("id", .vNum (u.id : Int)), ("name", .vStr u.name), ("email", .vStr u.email),
   ("phone", .vNum u.phone), ("address", .vStr u.address),
   ("firstNiche", optVal u.first_niche), ("secondNiche", optVal u.second_niche),
   ("thirdNiche", optVal u.third_niche), ("password", .vStr u.password),
   ("resumePublicId", optVal u.resume_public_id), ("resumeUrl", optVal u.resume_url),
   ("coverLetter", optVal u.cover_letter), ("role", .vStr u.role),
   ("createdAt", .vNum u.created_at), ("updatedAt", .vNum u.updated_at)]

/-- Model of `UserModel.formatUserResponse`: `delete formattedUser.password`
removes the password key from the formatted object. -/
def formatUserResponse (u : UserRow) : List (String × JSVal) :=
  (formatUser u).filter (fun kv => kv.1 != "password")

/-- The row set selected by `UserModel.findByJobNiche`'s query:
`role = 'Job Seeker' AND (first_niche = $1 OR second_niche = $1 OR
third_niche = $1) ORDER BY created_at DESC`.  A SQL `NULL` niche compares
unequal to every parameter, hence `== some jobNiche`. -/
def findByJobNicheRows (users : List UserRow) (jobNiche : String) : List UserRow :=
  sortDescBy (fun u => u.created_at)
    (users.filter (fun u =>
      u.role == "Job Seeker" &&
        (u.first_niche == some jobNiche || u.second_niche == some jobNiche ||
          u.third_niche == some jobNiche)))

/-- Model of `UserModel.findByJobNiche`: the selected rows, each put
through the response-facing (password-free) formatter. -/
def findByJobNiche (users : List UserRow) (jobNiche : String) : List (List (String × JSVal)) :=
  (findByJobNicheRows users jobNiche).map formatUserResponse

/-- Model of `UserModel.convertToSnakeCase`: the explicit per-entity
translation table; unknown keys pass through unchanged. -/
def convertToSnakeCase (s : String) : String :=
  if s = "firstNiche" then "first_niche"
  else if s = "secondNiche" then "second_niche"
  else if s = "thirdNiche" then "third_niche"
  else if s = "resumePublicId" then "resume_public_id"
  else if s = "resumeUrl" then "resume_url"
  else if s = "coverLetter" then "cover_letter"
  else if s = "createdAt" then "created_at"
  else if s = "updatedAt" then "updated_at"
  else s

end UserModel

/-- An untyped storage row as the generic `UPDATE` builders see it:
a total map from column name to value. -/
def RowMap : Type := String → JSVal

/-- Overwrite one column of a row. -/
def setCol (r : RowMap) (c : String) (v : JSVal) : RowMap :=
  fun c' => if c' = c then v else r c'

/-- Apply a `SET` list left to right. -/
def applySetList (r : RowMap) (fields : List (String × JSVal)) : RowMap :=
  fields.foldl (fun acc kv => setCol acc kv.1 kv.2) r

/-- The `fields`/`values` pairs collected by the update builders: every
payload entry whose value is not `undefined`, its key translated by the
entity's conversion table and its value by `tr` (identity everywhere
except the user model's password hashing). -/
def applicableFields (toSnake : String → String) (tr : String → JSVal → JSVal)
    (payload : List (String × JSArg)) : List (String × JSVal) :=
  payload.filterMap (fun kv =>
    match kv.2 with
    | .undef => none
    | .val v => some (toSnake kv.1, tr kv.1 v))

/-- Shared shape of `updateById` in the user, job and application models:
collect the applicable fields, throw `No fields to update` when there are
none (before any query is issued, so the table is unchanged), otherwise
run `UPDATE ... SET <fields>, updated_at = NOW() WHERE id = $id
RETURNING *` and hand back the first updated row. -/
def modelUpdateRun (toSnake : String → String) (tr : String → JSVal → JSVal)
    (db : List RowMap) (idv : JSVal) (payload : List (String × JSArg)) (now : JSVal) :
    List RowMap × Except String (Option RowMap) :=
  let fields := applicableFields toSnake tr payload
  if fields.isEmpty then (db, .error "No fields to update")
  else
    let upd := fun r => if r "id" = idv then setCol (applySetList r fields) "updated_at" now else r
    (db.map upd, .ok (((db.filter (fun r => r "id" == idv)).head?).map upd))

/-- Model of `UserModel.updateById`, parameterized by the bcrypt hashing
collaborator: a payload value under the key `password` is stored hashed. -/
def UserModel.updateById (hash : JSVal → JSVal) (db : List RowMap) (idv : JSVal)
    (payload : List (String × JSArg)) (now : JSVal) :
    List RowMap × Except String (Option RowMap) :=
  modelUpdateRun UserModel.convertToSnakeCase
    (fun k v => if k = "password" then hash v else v) db idv payload now

/-- A row of the `jobs` table (snake-case storage names). -/
structure JobRow where
  id : Nat
  title : String
  job_type : String
  location : String
  company_name : String
  introduction : Option String
  responsibilities : String
  qualifications : String
  offers : Option String
  salary : String
  hiring_multiple_candidates : String
  personal_website_title : Option String
  personal_website_url : Option String
  job_niche : String
  newsletters_sent : Bool
  job_posted_on : Int
  posted_by : Nat
  created_at : Int
  updated_at : Int
deriving DecidableEq, Repr

namespace JobModel

/-- Model of `JobModel.convertToSnakeCase`. -/
def convertToSnakeCase (s : String) : String :=
  if s = "jobType" then "job_type"
  else if s = "companyName" then "company_name"
  else if s = "hiringMultipleCandidates" then "hiring_multiple_candidates"
  else if s = "personalWebsiteTitle" then "personal_website_title"
  else if s = "personalWebsiteUrl" then "personal_website_url"
  else if s = "jobNiche" then "job_niche"
  else if s = "newsLettersSent" then "newsletters_sent"
  else if s = "jobPostedOn" then "job_posted_on"
  else if s = "postedBy" then "posted_by"
  else if s = "createdAt" then "created_at"
  else if s = "updatedAt" then "updated_at"
  else s

/-- Model of `JobModel.updateById` (no value transformation). -/
def updateById (db : List RowMap) (idv : JSVal)
    (payload : List (String × JSArg)) (now : JSVal) :
    List RowMap × Except String (Option RowMap) :=
  modelUpdateRun convertToSnakeCase (fun _ v => v) db idv payload now

/-- The row set selected by `JobModel.getJobsForNewsletter`:
`newsletters_sent = false AND created_at >= NOW() - INTERVAL '24 hours'`,
inner-joined with `users` on `posted_by = u.id`, ordered by
`created_at DESC`.  With user ids unique (primary key) the join
contributes exactly an existence condition on the poster; the projected
`poster_name`/`poster_email` columns only decorate the formatted output
and are not carried here.  Time is counted in hours. -/
def getJobsForNewsletter (jobs : List JobRow) (users : List UserRow) (now : Int) : List JobRow :=
  sortDescBy (fun j => j.created_at)
    (jobs.filter (fun j =>
      !j.newsletters_sent && decide (now - 24 ≤ j.created_at) &&
        users.any (fun u => u.id == j.posted_by)))

/-- Effect on the jobs table of the cron's
`JobModel.updateById(job.id, { newsLettersSent: true })` call: the
conversion table sends `newsLettersSent` to `newsletters_sent` and the
builder appends `updated_at = NOW()`; every row whose id matches is
updated and no other column is touched. -/
def markNewsletterSentById (jobs : List JobRow) (id : Nat) (now : Int) : List JobRow :=
  jobs.map (fun j =>
    if j.id = id then { j with newsletters_sent := true, updated_at := now } else j)

end JobModel

/-- A row of the `applications` table (snake-case storage names). -/
structure AppRow where
  id : Nat
  job_seeker_user_id : Nat
  job_seeker_name : String
  job_seeker_email : String
  job_seeker_phone : Int
  job_seeker_address : String
  resume_public_id : Option String
  resume_url : Option String
  cover_letter : String
  job_seeker_role : String
  employer_user_id : Nat
  employer_role : String
  job_id : Nat
  job_title : String
  deleted_by_job_seeker : Bool
  deleted_by_employer : Bool
  created_at : Int
  updated_at : Int
deriving DecidableEq, Repr

namespace ApplicationModel

/-- Model of `ApplicationModel.findExisting`: the first stored row with
`job_seeker_user_id = $1 AND job_id = $2 AND deleted_by_job_seeker =
false AND deleted_by_employer = false` (`result.rows[0]`), absent when no
row qualifies. -/
def findExisting (db : List AppRow) (jobSeekerUserId jobId : Nat) : Option AppRow :=
  db.find? (fun a =>
    a.job_seeker_user_id == jobSeekerUserId && a.job_id == jobId &&
      !a.deleted_by_job_seeker && !a.deleted_by_employer)

/-- Model of `ApplicationModel.deleteByJobSeeker`:
`UPDATE applications SET deleted_by_job_seeker = true, updated_at = NOW()
WHERE id = $1 AND job_seeker_user_id = $2 RETURNING *`.  The pair is the
updated table and `result.rows[0]` (the first updated row, if any). -/
def deleteByJobSeeker (db : List AppRow) (id jobSeekerUserId : Nat) (now : Int) :
    List AppRow × Option AppRow :=
  let hit := fun (a : AppRow) => a.id == id && a.job_seeker_user_id == jobSeekerUserId
  let upd := fun (a : AppRow) =>
    if hit a then { a with deleted_by_job_seeker := true, updated_at := now } else a
  (db.map upd, (db.find? hit).map upd)

/-- Model of `ApplicationModel.deleteByEmployer`:
`UPDATE applications SET deleted_by_employer = true, updated_at = NOW()
WHERE id = $1 AND employer_user_id = $2 RETURNING *`. -/
def deleteByEmployer (db : List AppRow) (id employerUserId : Nat) (now : Int) :
    List AppRow × Option AppRow :=
  let hit := fun (a : AppRow) => a.id == id && a.employer_user_id == employerUserId
  let upd := fun (a : AppRow) =>
    if hit a then { a with deleted_by_employer := true, updated_at := now } else a
  (db.map upd, (db.find? hit).map upd)

end ApplicationModel

/-- JS truthiness of an optional string field: `undefined`, `null` and
the empty string are falsy. -/
def jsFalsyStr : Option String → Bool
  | none => true
  | some s => s.isEmpty

/-- The check `!x || x.trim().length === 0` used for required text
fields. -/
def blankStr : Option String → Bool
  | none => true
  | some s => s.trim.isEmpty

/-- Non-emptiness plus the character class `[^\s@]+` of the email
regex. -/
def emailPartOk (l : List Char) : Bool :=
  !l.isEmpty && l.all (fun c => !c.isWhitespace && c != '@')

/-- Domain part of the email regex, `[^\s@]+\.[^\s@]+`: all characters
outside `\s` and `@`, with a dot that is neither the first nor the last
character (the class `[^\s@]` itself admits dots, so this is the exact
condition for a split into two nonempty halves). -/
def emailDomainOk (l : List Char) : Bool :=
  emailPartOk l && (l.drop 1).dropLast.contains '.'

/-- Character-level transcription of the full-string regex test
`/^[^\s@]+@[^\s@]+\.[^\s@]+$/.test(s)`: both classes exclude `@`, so a
match has exactly one `@`; the prefix before it is the local part and
the remainder the domain.  (JS `\s` is approximated by ASCII
whitespace.) -/
def emailRegexTest (s : List Char) : Bool :=
  match s.dropWhile (fun c => c != '@') with
  | '@' :: domain => emailPartOk (s.takeWhile (fun c => c != '@')) && emailDomainOk domain
  | _ => false

/-- The loosely-typed input object of `UserModel.validateUserData`
(`none` models an absent or `null` field). -/
structure UserData where
  name : Option String
  email : Option String
  phone : Option JSPhone
  address : Option String
  password : Option String
  role : Option String
  firstNiche : Option String
  secondNiche : Option String
  thirdNiche : Option String
deriving DecidableEq, Repr

namespace UserModel

/-- The name rule `!name || name.length < 3 || name.length > 30`. -/
def nameInvalid : Option String → Bool
  | none => true
  | some s => s.isEmpty || decide (s.length < 3) || decide (30 < s.length)

/-- The email rule `!email || !emailRegex.test(email)`. -/
def emailInvalid : Option String → Bool
  | none => true
  | some s => !emailRegexTest s.toList

/-- The password rule `!password || password.length < 8 ||
password.length > 32`. -/
def passwordInvalid : Option String → Bool
  | none => true
  | some s => s.isEmpty || decide (s.length < 8) || decide (32 < s.length)

/-- The role rule `!role || !["Job Seeker", "Employer"].includes(role)`
(the empty string is falsy and also not in the list, so one branch
suffices). -/
def roleInvalid : Option String → Bool
  | none => true
  | some r => !(r == "Job Seeker" || r == "Employer")

/-- The phone messages produced by `validateUserData`: a falsy phone
pushes the `required` message, otherwise the strict parser is run inside
`try/catch` and a caught error pushes `error.message`. -/
def phoneErrorsOf : Option JSPhone → List String
  | none => ["Please provide a phone number"]
  | some ph =>
    if jsFalsyPhone ph then ["Please provide a phone number"]
    else
      match convertPhoneToNumber ph with
      | .ok _ => []
      | .error e => [e]

/-- Model of `UserModel.validateUserData`: every violated rule appends
its message to the `errors` array, in source order; nothing throws. -/
def validateUserData (d : UserData) : List String :=
  (if nameInvalid d.name then ["Name must be between 3 and 30 characters"] else []) ++
  (if emailInvalid d.email then ["Please provide a valid email"] else []) ++
  phoneErrorsOf d.phone ++
  (if passwordInvalid d.password then ["Password must be between 8 and 32 characters"] else []) ++
  (if roleInvalid d.role then ["Role must be either \x22Job Seeker\x22 or \x22Employer\x22"] else []) ++
  (if d.role == some "Job Seeker" &&
      (jsFalsyStr d.firstNiche || jsFalsyStr d.secondNiche || jsFalsyStr d.thirdNiche) then
    ["Job Seekers must provide three job niches"]
  else [])

end UserModel

/-- The loosely-typed input object of
`ApplicationModel.validateApplicationData` (`none` models an absent or
`null` field; ids are opaque, so only their presence matters). -/
structure AppData where
  jobSeekerUserId : Option Nat
  jobSeekerName : Option String
  jobSeekerEmail : Option String
  jobSeekerPhone : Option JSPhone
  jobSeekerAddress : Option String
  coverLetter : Option String
  employerUserId : Option Nat
  jobId : Option Nat
  jobTitle : Option String
deriving DecidableEq, Repr

namespace ApplicationModel

/-- Model of `ApplicationModel.validateApplicationData`.  Unlike the
user validator, the phone branch calls the throwing strict parser with
no `try/catch` and then compares the result against `null`; the parser
never returns `null`, so that comparison is dead code and an invalid
phone propagates the parser's exception out of the validator, which is
the `.error` result here.  All messages pushed before the throw are
lost. -/
def validateApplicationData (d : AppData) : Except String (List String) :=
  let e1 := if d.jobSeekerUserId.isNone then ["Job seeker user ID is required"] else []
  let e2 := if blankStr d.jobSeekerName then ["Job seeker name is required"] else []
  let e3 :=
    if (match d.jobSeekerEmail with | none => true | some s => !emailRegexTest s.toList) then
      ["Valid job seeker email is required"]
    else []
  let tailErrs :=
    (if blankStr d.jobSeekerAddress then ["Job seeker address is required"] else []) ++
    (if blankStr d.coverLetter then ["Cover letter is required"] else []) ++
    (if d.employerUserId.isNone then ["Employer user ID is required"] else []) ++
    (if d.jobId.isNone then ["Job ID is required"] else []) ++
    (if blankStr d.jobTitle then ["Job title is required"] else [])
  match d.jobSeekerPhone with
  | none => .ok (e1 ++ e2 ++ e3 ++ ["Job seeker phone is required"] ++ tailErrs)
  | some ph =>
    if jsFalsyPhone ph then .ok (e1 ++ e2 ++ e3 ++ ["Job seeker phone is required"] ++ tailErrs)
    else
      match convertPhoneToNumber ph with
      | .error e => .error e
      | .ok _ => .ok (e1 ++ e2 ++ e3 ++ tailErrs)

end ApplicationModel

/-- The `email` property of a formatted user object, as read by the
newsletter cron (`user.email`). -/
def emailOf (o : List (String × JSVal)) : JSVal :=
  (o.lookup "email").getD JSVal.vNull

/-- Result of one newsletter cron run: the jobs table after the run, the
send attempts made (job id, recipient email) and the subset the
transport accepted. -/
structure TickResult where
  jobs : List JobRow
  attempted : List (Nat × JSVal)
  delivered : List (Nat × JSVal)
deriving DecidableEq, Repr

/-- Body of the cron's per-job loop.  When no user matches the job's
niche the loop `continue`s, leaving the state untouched (in particular
the job is not marked sent).  Otherwise one send is attempted per
matched user — the per-email `try/catch` only logs a transport failure
(`sendOk` decides which attempts the transport accepts), so every
matched user is attempted regardless of earlier failures — and then the
job is marked sent unconditionally. -/
def processJob (users : List UserRow) (sendOk : Nat → JSVal → Bool) (now : Int)
    (st : List JobRow × List (Nat × JSVal) × List (Nat × JSVal)) (job : JobRow) :
    List JobRow × List (Nat × JSVal) × List (Nat × JSVal) :=
  let filteredUsers := UserModel.findByJobNiche users job.job_niche
  if filteredUsers.isEmpty then st
  else
    let atts := filteredUsers.map (fun o => (job.id, emailOf o))
    (JobModel.markNewsletterSentById st.1 job.id now,
     st.2.1 ++ atts,
     st.2.2 ++ atts.filter (fun a => sendOk a.1 a.2))

/-- One run of the newsletter cron callback: fetch the unsent,
within-window jobs once, then process each fetched job against the
evolving jobs table.  (Storage is assumed reachable; email transport
failures are the `sendOk` parameter.) -/
def newsletterTick (jobs : List JobRow) (users : List UserRow)
    (sendOk : Nat → JSVal → Bool) (now : Int) : TickResult :=
  let cands := JobModel.getJobsForNewsletter jobs users now
  let st := cands.foldl (processJob users sendOk now) (jobs, [], [])
  ⟨st.1, st.2.1, st.2.2⟩

/-! Concrete fixtures used by witnesses and counterexamples. -/

/-- An employer row (poster of the fixture jobs). -/
def fixEmployer : UserRow :=
  { id := 1, name := "Eve Employer", email := "eve@corp.com", phone := 9876543210,
    address := "HQ", first_niche := none, second_niche := none, third_niche := none,
    password := "hunter2hunter2", resume_public_id := none, resume_url := none,
    cover_letter := none, role := "Employer", created_at := 1, updated_at := 1 }

/-- A job-seeker row subscribed to the fixture job's niche. -/
def fixSeeker : UserRow :=
  { id := 2, name := "Sam Seeker", email := "sam@mail.com", phone := 9876543211,
    address := "Town", first_niche := some "Software Development",
    second_niche := some "Data Science", third_niche := some "Cloud Computing",
    password := "pw123456", resume_public_id := none, resume_url := none,
    cover_letter := none, role := "Job Seeker", created_at := 5, updated_at := 5 }

/-- An unsent job posted within the window, in the seeker's niche. -/
def fixJob : JobRow :=
  { id := 10, title := "Backend Dev", job_type := "Full-time", location := "Remote",
    company_name := "Acme", introduction := none, responsibilities := "Build",
    qualifications := "JS", offers := none, salary := "10 LPA",
    hiring_multiple_candidates := "No", personal_website_title := none,
    personal_website_url := none, job_niche := "Software Development",
    newsletters_sent := false, job_posted_on := 100, posted_by := 1,
    created_at := 100, updated_at := 100 }

/-- An unsent within-window job whose niche matches no subscriber. -/
def fixJobNoMatch : JobRow :=
  { fixJob with id := 11, job_niche := "Quantum Basketry" }

/-- An unsent job older than the 24-hour window. -/
def fixJobStale : JobRow :=
  { fixJob with id := 12, created_at := 0, job_posted_on := 0 }

/-- An active application of the fixture seeker to the fixture job. -/
def fixApp : AppRow :=
  { id := 1, job_seeker_user_id := 2, job_seeker_name := "Sam Seeker",
    job_seeker_email := "sam@mail.com", job_seeker_phone := 9876543211,
    job_seeker_address := "Town", resume_public_id := none, resume_url := none,
    cover_letter := "hi", job_seeker_role := "Job Seeker", employer_user_id := 1,
    employer_role := "Employer", job_id := 10, job_title := "Backend Dev",
    deleted_by_job_seeker := false, deleted_by_employer := false,
    created_at := 50, updated_at := 50 }

/-- Application input that is valid except for the phone number. -/
def fixAppData : AppData :=
  { jobSeekerUserId := some 2, jobSeekerName := some "Sam Seeker",
    jobSeekerEmail := some "sam@mail.com", jobSeekerPhone := some (.str "123".toList),
    jobSeekerAddress := some "Town", coverLetter := some "hi",
    employerUserId := some 1, jobId := some 10, jobTitle := some "Backend Dev" }

/-- User input with a too-short name and an invalid phone number. -/
def fixUserData : UserData :=
  { name := some "Al", email := some "al@mail.com", phone := some (.str "123".toList),
    address := some "x", password := some "longenough", role := some "Job Seeker",
    firstNiche := some "A", secondNiche := some "B", thirdNiche := some "C" }

/-- A one-row generic table for the update builders. -/
def fixRowMap : RowMap := fun c => if c = "id" then .vNum 7 else .vStr "old"

/-- A two-field partial-update payload (one of them an explicit null). -/
def fixPayload : List (String × JSArg) :=
  [("jobNiche", .val (.vStr "AI")), ("title", .val .vNull)]

/-! Auxiliary lemmas on decimal digit lists. -/

theorem toDecDigitsGo_ne_nil (f n : Nat) : toDecDigitsGo f n ≠ [] := by
  cases f with
  | zero => simp [toDecDigitsGo]
  | succ m =>
    simp only [toDecDigitsGo]
    split <;> simp

theorem toDecDigits_ne_nil (n : Nat) : toDecDigits n ≠ [] :=
  toDecDigitsGo_ne_nil n n

theorem toDecDigitsGo_irrel (f₁ : Nat) : ∀ f₂ n, n ≤ f₁ → n ≤ f₂ →
    toDecDigitsGo f₁ n = toDecDigitsGo f₂ n := by
  induction f₁ with
  | zero =>
    intro f₂ n h1 _
    have hn : n = 0 := Nat.le_zero.mp h1
    subst hn
    cases f₂ with
    | zero => rfl
    | succ k => simp [toDecDigitsGo]
  | succ m ih =>
    intro f₂ n h1 h2
    cases f₂ with
    | zero =>
      have hn : n = 0 := Nat.le_zero.mp h2
      subst hn
      simp [toDecDigitsGo]
    | succ k =>
      by_cases hn : n < 10
      · simp [toDecDigitsGo, hn]
      · simp only [toDecDigitsGo, if_neg hn]
        have hd : n / 10 < n := Nat.div_lt_self (by omega) (by omega)
        rw [ih k (n / 10) (by omega) (by omega)]

theorem toDecDigits_lt10 (n : Nat) (h : n < 10) : toDecDigits n = [n] := by
  unfold toDecDigits
  cases n with
  | zero => simp [toDecDigitsGo]
  | succ m => simp [toDecDigitsGo, h]

theorem toDecDigits_div10 (n : Nat) (h : 10 ≤ n) :
    toDecDigits n = toDecDigits (n / 10) ++ [n % 10] := by
  obtain ⟨m, rfl⟩ : ∃ m, n = m + 1 := ⟨n - 1, by omega⟩
  show toDecDigitsGo (m + 1) (m + 1) = _
  simp only [toDecDigitsGo, if_neg (by omega : ¬ m + 1 < 10)]
  have hd : (m + 1) / 10 < m + 1 := Nat.div_lt_self (by omega) (by omega)
  rw [toDecDigitsGo_irrel m ((m + 1) / 10) ((m + 1) / 10) (by omega) (le_refl _)]
  rfl

theorem toDecDigits_step (a c : Nat) (ha : 1 ≤ a) (hc : c < 10) :
    toDecDigits (10 * a + c) = toDecDigits a ++ [c] := by
  rw [toDecDigits_div10 (10 * a + c) (by omega)]
  have h1 : (10 * a + c) / 10 = a := by omega
  have h2 : (10 * a + c) % 10 = c := by omega
  rw [h1, h2]

theorem toDecDigits_all_lt (n : Nat) : ∀ d ∈ toDecDigits n, d < 10 := by
  induction n using Nat.strong_induction_on with
  | _ n ih =>
    by_cases h : n < 10
    · rw [toDecDigits_lt10 n h]
      intro d hd
      simp at hd
      omega
    · rw [toDecDigits_div10 n (by omega)]
      intro d hd
      rcases List.mem_append.mp hd with h1 | h2
      · exact ih (n / 10) (Nat.div_lt_self (by omega) (by omega)) d h1
      · simp at h2
        omega

theorem valOfDigits_toDecDigits (n : Nat) : valOfDigits (toDecDigits n) = n := by
  induction n using Nat.strong_induction_on with
  | _ n ih =>
    by_cases h : n < 10
    · rw [toDecDigits_lt10 n h]
      simp [valOfDigits]
    · rw [toDecDigits_div10 n (by omega)]
      unfold valOfDigits
      rw [List.foldl_append]
      have := ih (n / 10) (Nat.div_lt_self (by omega) (by omega))
      unfold valOfDigits at this
      rw [this]
      simp
      omega

theorem foldl_val_decompose (l : List Nat) : ∀ a : Nat,
    l.foldl (fun x d => 10 * x + d) a = a * 10 ^ l.length + valOfDigits l := by
  induction l with
  | nil => intro a; simp [valOfDigits]
  | cons c t ih =>
    intro a
    have hval : valOfDigits (c :: t) = c * 10 ^ t.length + valOfDigits t := by
      show List.foldl _ 0 (c :: t) = _
      simp only [List.foldl_cons]
      have h0 : 10 * 0 + c = c := by omega
      rw [h0, ih c]
    simp only [List.foldl_cons, List.length_cons]
    rw [ih (10 * a + c), hval]
    ring

theorem valOfDigits_cons (c : Nat) (t : List Nat) :
    valOfDigits (c :: t) = c * 10 ^ t.length + valOfDigits t := by
  show List.foldl _ 0 (c :: t) = _
  simp only [List.foldl_cons]
  have h0 : 10 * 0 + c = c := by omega
  rw [h0, foldl_val_decompose t c]

theorem valOfDigits_lt (l : List Nat) (h : ∀ d ∈ l, d < 10) :
    valOfDigits l < 10 ^ l.length := by
  induction l with
  | nil => simp [valOfDigits]
  | cons c t ih =>
    have hc : c < 10 := h c (by simp)
    have ht : valOfDigits t < 10 ^ t.length := ih (fun d hd => h d (by simp [hd]))
    calc valOfDigits (c :: t) = c * 10 ^ t.length + valOfDigits t := valOfDigits_cons c t
    _ < c * 10 ^ t.length + 10 ^ t.length := by omega
    _ = (c + 1) * 10 ^ t.length := by ring
    _ ≤ 10 * 10 ^ t.length := Nat.mul_le_mul_right _ (by omega)
    _ = 10 ^ (c :: t).length := by simp [List.length_cons]; ring

theorem toDecDigits_foldl (l : List Nat) : ∀ a : Nat, 1 ≤ a → (∀ d ∈ l, d < 10) →
    toDecDigits (l.foldl (fun x d => 10 * x + d) a) = toDecDigits a ++ l := by
  induction l with
  | nil => intro a _ _; simp
  | cons c t ih =>
    intro a ha h
    have hc : c < 10 := h c (by simp)
    simp only [List.foldl_cons]
    rw [ih (10 * a + c) (by omega) (fun d hd => h d (by simp [hd])),
      toDecDigits_step a c ha hc]
    simp

theorem toDecDigits_valOfDigits (c : Nat) (t : List Nat) (hc1 : 1 ≤ c) (hc : c < 10)
    (ht : ∀ d ∈ t, d < 10) : toDecDigits (valOfDigits (c :: t)) = c :: t := by
  show toDecDigits (List.foldl _ 0 (c :: t)) = _
  simp only [List.foldl_cons]
  have h0 : 10 * 0 + c = c := by omega
  rw [h0, toDecDigits_foldl t c hc1 ht, toDecDigits_lt10 c hc]
  rfl

theorem toDecDigits_length_of (k : Nat) : ∀ n, 10 ^ k ≤ n → n < 10 ^ (k + 1) →
    (toDecDigits n).length = k + 1 := by
  induction k with
  | zero =>
    intro n h1 h2
    simp only [pow_zero] at h1
    simp only [zero_add, pow_one] at h2
    rw [toDecDigits_lt10 n h2]
    rfl
  | succ m ih =>
    intro n h1 h2
    have h10 : 10 ≤ n := by
      have : (10 : Nat) ^ 1 ≤ 10 ^ (m + 1) := Nat.pow_le_pow_right (by omega) (by omega)
      simp only [pow_one] at this
      omega
    rw [toDecDigits_div10 n h10]
    rw [List.length_append]
    have hl : 10 ^ m ≤ n / 10 := by
      rw [Nat.le_div_iff_mul_le (by omega)]
      calc 10 ^ m * 10 = 10 ^ (m + 1) := (pow_succ 10 m).symm
      _ ≤ n := h1
    have hu : n / 10 < 10 ^ (m + 1) := by
      rw [Nat.div_lt_iff_lt_mul (by omega)]
      calc n < 10 ^ (m + 1 + 1) := h2
      _ = 10 ^ (m + 1) * 10 := pow_succ 10 (m + 1)
    rw [ih (n / 10) hl hu]
    rfl

theorem toDecDigits_headD_of (k : Nat) : ∀ n, 10 ^ k ≤ n → n < 10 ^ (k + 1) →
    (toDecDigits n).headD 0 = n / 10 ^ k := by
  induction k with
  | zero =>
    intro n h1 h2
    simp only [zero_add, pow_one] at h2
    rw [toDecDigits_lt10 n h2]
    simp
  | succ m ih =>
    intro n h1 h2
    have h10 : 10 ≤ n := by
      have : (10 : Nat) ^ 1 ≤ 10 ^ (m + 1) := Nat.pow_le_pow_right (by omega) (by omega)
      simp only [pow_one] at this
      omega
    rw [toDecDigits_div10 n h10]
    have hl : 10 ^ m ≤ n / 10 := by
      rw [Nat.le_div_iff_mul_le (by omega)]
      calc 10 ^ m * 10 = 10 ^ (m + 1) := (pow_succ 10 m).symm
      _ ≤ n := h1
    have hu : n / 10 < 10 ^ (m + 1) := by
      rw [Nat.div_lt_iff_lt_mul (by omega)]
      calc n < 10 ^ (m + 1 + 1) := h2
      _ = 10 ^ (m + 1) * 10 := pow_succ 10 (m + 1)
    have hih := ih (n / 10) hl hu
    cases hcons : toDecDigits (n / 10) with
    | nil => exact absurd hcons (toDecDigits_ne_nil (n / 10))
    | cons h t =>
      rw [hcons] at hih
      simp only [List.headD_cons] at hih
      simp only [List.cons_append, List.headD_cons]
      rw [hih, Nat.div_div_eq_div_mul]
      congr 1
      rw [pow_succ]
      ring

theorem phoneCheck_of_range (n : Nat) (h1 : 6 * 10 ^ 9 ≤ n) (h2 : n < 10 ^ 10) :
    (toDecDigits n).length = 10 ∧ 6 ≤ (toDecDigits n).headD 0 ∧
      (toDecDigits n).headD 0 ≤ 9 := by
  have hl : (10 : Nat) ^ 9 ≤ n := by
    have : (10 : Nat) ^ 9 ≤ 6 * 10 ^ 9 := by norm_num
    omega
  have hlen := toDecDigits_length_of 9 n hl (by norm_num at h2 ⊢; omega)
  have hhead := toDecDigits_headD_of 9 n hl (by norm_num at h2 ⊢; omega)
  refine ⟨hlen, ?_, ?_⟩ <;> rw [hhead] <;> norm_num at h1 h2 ⊢ <;> omega

theorem range_of_phoneCheck (n : Nat) (hlen : (toDecDigits n).length = 10)
    (h6 : 6 ≤ (toDecDigits n).headD 0) (h9 : (toDecDigits n).headD 0 ≤ 9) :
    6 * 10 ^ 9 ≤ n ∧ n < 10 ^ 10 := by
  cases hl : toDecDigits n with
  | nil => exact absurd hl (toDecDigits_ne_nil n)
  | cons h t =>
    have hv := valOfDigits_toDecDigits n
    rw [hl] at hv
    have hdig := toDecDigits_all_lt n
    rw [hl] at hdig
    have htail : ∀ d ∈ t, d < 10 := fun d hd => hdig d (by simp [hd])
    have hlt : valOfDigits t < 10 ^ t.length := valOfDigits_lt t htail
    have hdec := valOfDigits_cons h t
    rw [hl] at hlen h6 h9
    simp only [List.length_cons] at hlen
    have hL : t.length = 9 := by omega
    simp only [List.headD_cons] at h6 h9
    rw [hL] at hlt hdec
    rw [hdec] at hv
    norm_num at hlt hv ⊢
    omega

/-! Auxiliary lemmas on digit characters. -/

theorem isDigit_char_cases (c : Char) (h : c.isDigit = true) :
    c ∈ ['0', '1', '2', '3', '4', '5', '6', '7', '8', '9'] := by
  simp [Char.isDigit] at h
  obtain ⟨h1, h2⟩ := h
  rw [UInt32.le_def] at h1 h2
  have h1' : 48 ≤ c.toNat := h1
  have h2' : c.toNat ≤ 57 := h2
  have hcs : c.toNat = 48 ∨ c.toNat = 49 ∨ c.toNat = 50 ∨ c.toNat = 51 ∨ c.toNat = 52 ∨
      c.toNat = 53 ∨ c.toNat = 54 ∨ c.toNat = 55 ∨ c.toNat = 56 ∨ c.toNat = 57 := by omega
  have hc := Char.ofNat_toNat c
  rcases hcs with h' | h' | h' | h' | h' | h' | h' | h' | h' | h' <;> rw [h'] at hc <;>
    rw [← hc] <;> decide

theorem digitChar_digitVal (c : Char) (h : c.isDigit = true) :
    Nat.digitChar (digitVal c) = c := by
  have hm := isDigit_char_cases c h
  simp only [List.mem_cons, List.not_mem_nil, or_false] at hm
  rcases hm with rfl | rfl | rfl | rfl | rfl | rfl | rfl | rfl | rfl | rfl <;> decide

theorem digitVal_lt_ten (c : Char) (h : c.isDigit = true) : digitVal c < 10 := by
  have hm := isDigit_char_cases c h
  simp only [List.mem_cons, List.not_mem_nil, or_false] at hm
  rcases hm with rfl | rfl | rfl | rfl | rfl | rfl | rfl | rfl | rfl | rfl <;> decide

theorem isDigit_not_whitespace (c : Char) (h : c.isDigit = true) :
    c.isWhitespace = false := by
  have hm := isDigit_char_cases c h
  simp only [List.mem_cons, List.not_mem_nil, or_false] at hm
  rcases hm with rfl | rfl | rfl | rfl | rfl | rfl | rfl | rfl | rfl | rfl <;> decide

theorem isDigit_ne_signs (c : Char) (h : c.isDigit = true) : c ≠ '-' ∧ c ≠ '+' := by
  have hm := isDigit_char_cases c h
  simp only [List.mem_cons, List.not_mem_nil, or_false] at hm
  rcases hm with rfl | rfl | rfl | rfl | rfl | rfl | rfl | rfl | rfl | rfl <;> exact ⟨by decide, by decide⟩

theorem digitChar_isDigit (d : Nat) (h : d < 10) : (Nat.digitChar d).isDigit = true := by
  interval_cases d <;> decide

theorem digitVal_digitChar (d : Nat) (h : d < 10) : digitVal (Nat.digitChar d) = d := by
  interval_cases d <;> decide

theorem head_six_nine_val (c : Char) (h : c = '6' ∨ c = '7' ∨ c = '8' ∨ c = '9') :
    c.isDigit = true ∧ 6 ≤ digitVal c ∧ digitVal c ≤ 9 := by
  rcases h with rfl | rfl | rfl | rfl <;> exact ⟨by decide, by decide, by decide⟩

theorem digitChar_six_nine (d : Nat) (h6 : 6 ≤ d) (h9 : d ≤ 9) :
    Nat.digitChar d = '6' ∨ Nat.digitChar d = '7' ∨ Nat.digitChar d = '8' ∨
      Nat.digitChar d = '9' := by
  interval_cases d <;> decide

theorem takeWhile_of_all {α : Type} (p : α → Bool) (l : List α) (h : ∀ c ∈ l, p c = true) :
    l.takeWhile p = l := by
  induction l with
  | nil => rfl
  | cons c t ih =>
    rw [List.takeWhile_cons, if_pos (h c (by simp))]
    rw [ih (fun x hx => h x (by simp [hx]))]

/-! Behaviour of the `parseInt` model on all-digit strings. -/

theorem jsParseInt_digits (c : Char) (t : List Char) (h : ∀ x ∈ c :: t, x.isDigit = true) :
    jsParseInt (c :: t) = some ((valOfDigits ((c :: t).map digitVal) : Nat) : Int) := by
  have hc := h c (by simp)
  obtain ⟨hd1, hd2⟩ := isDigit_ne_signs c hc
  unfold jsParseInt
  rw [List.dropWhile_cons, if_neg (by rw [isDigit_not_whitespace c hc]; simp)]
  simp only [if_neg hd1, if_neg hd2]
  unfold jsParseIntCore
  rw [takeWhile_of_all _ _ h]
  rw [if_neg (by simp)]
  unfold valOfDigits
  rw [List.foldl_map]
  rfl

/-! The strict phone parser accepts every 10-digit string beginning with
6, 7, 8 or 9 and returns the string's numeric value. -/

theorem convertPhone_str_digits (c : Char) (t : List Char)
    (hlen : (c :: t).length = 10) (hdig : ∀ x ∈ c :: t, x.isDigit = true)
    (hc : c = '6' ∨ c = '7' ∨ c = '8' ∨ c = '9') :
    convertPhoneToNumber (.str (c :: t)) =
        .ok ((valOfDigits ((c :: t).map digitVal) : Nat) : Int) ∧
      6 * 10 ^ 9 ≤ valOfDigits ((c :: t).map digitVal) ∧
      valOfDigits ((c :: t).map digitVal) < 10 ^ 10 := by
  obtain ⟨hcd, h6, h9⟩ := head_six_nine_val c hc
  have hmap : (c :: t).map digitVal = digitVal c :: t.map digitVal := rfl
  have htdig : ∀ d ∈ t.map digitVal, d < 10 := by
    intro d hd
    obtain ⟨x, hx, rfl⟩ := List.mem_map.mp hd
    exact digitVal_lt_ten x (hdig x (by simp [hx]))
  have hL9 : (t.map digitVal).length = 9 := by
    simp only [List.length_map]
    simp only [List.length_cons] at hlen
    omega
  have hcons := valOfDigits_cons (digitVal c) (t.map digitVal)
  rw [hL9] at hcons
  have htail_lt : valOfDigits (t.map digitVal) < 10 ^ 9 := by
    have := valOfDigits_lt (t.map digitVal) htdig
    rw [hL9] at this
    exact this
  have hrange : 6 * 10 ^ 9 ≤ valOfDigits ((c :: t).map digitVal) ∧
      valOfDigits ((c :: t).map digitVal) < 10 ^ 10 := by
    rw [hmap, hcons]
    constructor
    · have : 6 * 10 ^ 9 ≤ digitVal c * 10 ^ 9 := Nat.mul_le_mul_right _ h6
      omega
    · have h1 : digitVal c * 10 ^ 9 ≤ 9 * 10 ^ 9 := Nat.mul_le_mul_right _ h9
      have h2 : 9 * 10 ^ 9 + 10 ^ 9 = 10 ^ 10 := by norm_num
      omega
  have hround : toDecDigits (valOfDigits ((c :: t).map digitVal)) =
      digitVal c :: t.map digitVal := by
    rw [hmap]
    exact toDecDigits_valOfDigits (digitVal c) (t.map digitVal) (by omega) (by omega) htdig
  refine ⟨?_, hrange⟩
  have hpos : 0 < valOfDigits ((c :: t).map digitVal) := by
    have := hrange.1
    have h9pos : 0 < 6 * 10 ^ 9 := by norm_num
    omega
  unfold convertPhoneToNumber
  rw [if_neg (by simp [jsFalsyPhone])]
  rw [show (match JSPhone.str (c :: t) with
      | JSPhone.str s => jsParseInt s
      | JSPhone.num n => some n) = jsParseInt (c :: t) from rfl]
  rw [jsParseInt_digits c t hdig]
  have hnneg : ¬ ((valOfDigits ((c :: t).map digitVal) : Nat) : Int) ≤ 0 := by
    push_neg
    exact_mod_cast hpos
  simp only [convertParsed, if_neg hnneg, Int.toNat_natCast]
  simp only [hround]
  rw [if_pos ?_]
  refine ⟨?_, ?_, ?_⟩
  · simp [hL9]
  · simpa using h6
  · simpa using h9

/-- C4 (amended): every all-digit 10-character string whose first digit
is 6, 7, 8 or 9 is accepted by the strict phone parser, which returns
the string's numeric value as a positive integer; the safe variant
returns exactly the strict parser's successes and `null` in place of its
failures; the boolean predicate holds exactly when the strict parser
succeeds; and falsy or non-positive numeric inputs fail.  (The original
claim's converse — that every input of any other shape fails — is false;
see the counterexample.) -/
theorem phone_parser_spec :
    (∀ (c : Char) (t : List Char), (c :: t).length = 10 →
      (∀ x ∈ c :: t, x.isDigit = true) → (c = '6' ∨ c = '7' ∨ c = '8' ∨ c = '9') →
      convertPhoneToNumber (.str (c :: t)) =
          .ok ((valOfDigits ((c :: t).map digitVal) : Nat) : Int) ∧
        0 < ((valOfDigits ((c :: t).map digitVal) : Nat) : Int)) ∧
    (∀ p, safeConvertPhoneToNumber p = (convertPhoneToNumber p).toOption) ∧
    (∀ p, isValidPhoneNumber p = true ↔ ∃ n, convertPhoneToNumber p = .ok n) ∧
    (∀ n : Int, n ≤ 0 → ∃ e, convertPhoneToNumber (.num n) = .error e) ∧
    convertPhoneToNumber (.str []) = .error "Phone number is required" := by
  refine ⟨?_, ?_, ?_, ?_, rfl⟩
  · intro c t hlen hdig hc
    obtain ⟨hok, hlo, _⟩ := convertPhone_str_digits c t hlen hdig hc
    refine ⟨hok, ?_⟩
    have : 0 < valOfDigits ((c :: t).map digitVal) := by
      have : (0 : Nat) < 6 * 10 ^ 9 := by norm_num
      omega
    exact_mod_cast this
  · intro p
    cases h : convertPhoneToNumber p <;>
      simp [safeConvertPhoneToNumber, h, Except.toOption]
  · intro p
    cases h : convertPhoneToNumber p with
    | error e => simp [isValidPhoneNumber, h]
    | ok v => simp [isValidPhoneNumber, h]
  · intro n hn
    by_cases h0 : n = 0
    · subst h0
      exact ⟨"Phone number is required", rfl⟩
    · refine ⟨"Please provide a valid phone number (digits only)", ?_⟩
      unfold convertPhoneToNumber
      rw [if_neg (by simp [jsFalsyPhone, h0])]
      rw [show (match JSPhone.num n with
          | JSPhone.str s => jsParseInt s
          | JSPhone.num m => some m) = some n from rfl]
      simp only [convertParsed, if_pos hn]

/-- C4 counterexample: the string `"9876543210abc"` is not a 10-digit
string (wrong length, not all digits), yet the strict parser accepts it,
because `parseInt` salvages the leading digit prefix.  This refutes the
claim that every input other than a 10-digit `[6-9]`-leading string
fails. -/
theorem phone_parser_counterexample :
    convertPhoneToNumber (.str ("9876543210abc".toList)) = .ok 9876543210 ∧
      ("9876543210abc".toList).length ≠ 10 ∧
      ¬ (∀ x ∈ "9876543210abc".toList, x.isDigit = true) :=
  ⟨rfl, by decide, by decide⟩

/-- C4 witness: the theorem applied to the concrete digit string
`"9876543210"`. -/
theorem phone_parser_spec_witness :
    convertPhoneToNumber (.str ('9' :: "876543210".toList)) =
        .ok ((valOfDigits (('9' :: "876543210".toList).map digitVal) : Nat) : Int) ∧
      0 < ((valOfDigits (('9' :: "876543210".toList).map digitVal) : Nat) : Int) :=
  phone_parser_spec.1 '9' ("876543210".toList) (by decide) (by decide) (by decide)

/-- Stripping non-digits from the grouped national format recovers
exactly the ten digits. -/
theorem filter_digits_national (L : List Char) (h : ∀ x ∈ L, x.isDigit = true) :
    (('(' :: L.take 3 ++ ')' :: ' ' :: (L.drop 3).take 3 ++ '-' :: L.drop 6).filter
        (fun c => c.isDigit)) = L.take 3 ++ ((L.drop 3).take 3 ++ (L.drop 3).drop 3) := by
  have htake3 : ∀ x ∈ L.take 3, x.isDigit = true := fun x hx => h x (List.mem_of_mem_take hx)
  have hdrop3 : ∀ x ∈ (L.drop 3).take 3, x.isDigit = true := fun x hx =>
    h x (List.mem_of_mem_drop (List.mem_of_mem_take hx))
  have hdrop6 : ∀ x ∈ L.drop 6, x.isDigit = true := fun x hx => h x (List.mem_of_mem_drop hx)
  have h63 : L.drop 6 = (L.drop 3).drop 3 := by rw [List.drop_drop]
  simp only [List.filter_cons, List.filter_append, show ('(').isDigit = false from rfl,
    show (')').isDigit = false from rfl, show (' ').isDigit = false from rfl,
    show ('-').isDigit = false from rfl, Bool.false_eq_true, if_false]
  rw [List.filter_eq_self.mpr htake3, List.filter_eq_self.mpr hdrop3,
    List.filter_eq_self.mpr hdrop6, h63, List.append_assoc]

/-- C9 (confirmed): for every integer accepted by the strict parser,
formatting for display and re-parsing the formatted string recovers the
number; and the display formatter takes the grouped national branch at
length 10, the country-coded branch at length 11 with a leading `1`, the
generic international branch at any other length above 10, and returns
shorter inputs unchanged. -/
theorem format_parse_roundtrip :
    (∀ n : Int, convertPhoneToNumber (.num n) = .ok n →
      parseFormattedPhone (formatPhoneForDisplay (.num n)) = .ok n) ∧
    (∀ p, (jsPhoneToString p).length = 10 →
      formatPhoneForDisplay p =
        '(' :: (jsPhoneToString p).take 3 ++ ')' :: ' ' ::
          ((jsPhoneToString p).drop 3).take 3 ++ '-' :: (jsPhoneToString p).drop 6) ∧
    (∀ p, (jsPhoneToString p).length = 11 → (jsPhoneToString p).head? = some '1' →
      formatPhoneForDisplay p =
        '+' :: '1' :: ' ' :: '(' :: ((jsPhoneToString p).drop 1).take 3 ++ ')' :: ' ' ::
          ((jsPhoneToString p).drop 4).take 3 ++ '-' :: (jsPhoneToString p).drop 7) ∧
    (∀ p, 10 < (jsPhoneToString p).length →
      ¬ ((jsPhoneToString p).length = 11 ∧ (jsPhoneToString p).head? = some '1') →
      formatPhoneForDisplay p =
        '+' :: (jsPhoneToString p).take ((jsPhoneToString p).length - 10) ++ ' ' ::
          ((jsPhoneToString p).drop ((jsPhoneToString p).length - 10)).take 4 ++ ' ' ::
          (jsPhoneToString p).drop ((jsPhoneToString p).length - 6)) ∧
    (∀ p, (jsPhoneToString p).length < 10 → formatPhoneForDisplay p = jsPhoneToString p) := by
  refine ⟨?_, ?_, ?_, ?_, ?_⟩
  · intro n h
    unfold convertPhoneToNumber at h
    by_cases hfal : jsFalsyPhone (.num n) = true
    · rw [if_pos hfal] at h
      exact absurd h (by simp)
    rw [if_neg hfal] at h
    rw [show (match JSPhone.num n with
        | JSPhone.str s => jsParseInt s
        | JSPhone.num m => some m) = some n from rfl] at h
    simp only [convertParsed] at h
    by_cases hle : n ≤ 0
    · rw [if_pos hle] at h
      exact absurd h (by simp)
    rw [if_neg hle] at h
    by_cases hchk : (toDecDigits n.toNat).length = 10 ∧
        6 ≤ (toDecDigits n.toNat).headD 0 ∧ (toDecDigits n.toNat).headD 0 ≤ 9
    case neg =>
      rw [if_neg hchk] at h
      exact absurd h (by simp)
    obtain ⟨hlen, h6, h9⟩ := hchk
    have hpos : 0 < n := by omega
    have hds : ∀ d ∈ toDecDigits n.toNat, d < 10 := toDecDigits_all_lt n.toNat
    have hLdig : ∀ x ∈ (toDecDigits n.toNat).map Nat.digitChar, x.isDigit = true := by
      intro x hx
      obtain ⟨d, hd, rfl⟩ := List.mem_map.mp hx
      exact digitChar_isDigit d (hds d hd)
    have hLlen : ((toDecDigits n.toNat).map Nat.digitChar).length = 10 := by
      simp [hlen]
    have hstr : jsPhoneToString (.num n) = (toDecDigits n.toNat).map Nat.digitChar := by
      show (if n < 0 then _ else _) = _
      rw [if_neg (by omega)]
    have hfmt : formatPhoneForDisplay (.num n) =
        '(' :: ((toDecDigits n.toNat).map Nat.digitChar).take 3 ++ ')' :: ' ' ::
          (((toDecDigits n.toNat).map Nat.digitChar).drop 3).take 3 ++ '-' ::
          ((toDecDigits n.toNat).map Nat.digitChar).drop 6 := by
      unfold formatPhoneForDisplay
      rw [hstr]
      rw [if_pos hLlen]
    rw [hfmt]
    unfold parseFormattedPhone
    rw [filter_digits_national _ hLdig, List.take_append_drop, List.take_append_drop]
    cases hcons : toDecDigits n.toNat with
    | nil => exact absurd hcons (toDecDigits_ne_nil n.toNat)
    | cons d0 ds =>
      rw [hcons] at h6 h9 hlen hds
      simp only [List.headD_cons] at h6 h9
      simp only [List.length_cons] at hlen
      have hd0lt : d0 < 10 := hds d0 (by simp)
      have hdslt : ∀ d ∈ ds, d < 10 := fun d hd => hds d (by simp [hd])
      simp only [List.map_cons]
      have happly := convertPhone_str_digits (Nat.digitChar d0) (ds.map Nat.digitChar)
        (by simp; omega)
        (by
          intro x hx
          simp only [← List.map_cons] at hx
          rw [← hcons] at hx
          exact hLdig x hx)
        (digitChar_six_nine d0 h6 h9)
      have hvv : ((Nat.digitChar d0 :: ds.map Nat.digitChar).map digitVal) = d0 :: ds := by
        simp only [List.map_cons, List.map_map]
        congr 1
        · exact digitVal_digitChar d0 hd0lt
        · have hpt : ∀ d ∈ ds, (digitVal ∘ Nat.digitChar) d = d := fun d hd =>
            digitVal_digitChar d (hdslt d hd)
          rw [List.map_congr_left hpt]
          simp
      rw [happly.1, hvv]
      have hvn : valOfDigits (d0 :: ds) = n.toNat := by
        have := valOfDigits_toDecDigits n.toNat
        rw [hcons] at this
        exact this
      rw [hvn, Int.toNat_of_nonneg (by omega)]
  · intro p h
    simp only [formatPhoneForDisplay]
    rw [if_pos h]
  · intro p h1 h2
    simp only [formatPhoneForDisplay]
    rw [if_neg (by omega), if_pos ⟨h1, h2⟩]
  · intro p h1 h2
    simp only [formatPhoneForDisplay]
    rw [if_neg (by omega), if_neg h2, if_pos (by omega)]
  · intro p h
    simp only [formatPhoneForDisplay]
    rw [if_neg (by omega), if_neg (by omega ∘ And.left ∘ id), if_neg (by omega)]

/-- C9 witness: the round-trip and the national branch at the concrete
accepted number 9876543210. -/
theorem format_parse_roundtrip_witness :
    parseFormattedPhone (formatPhoneForDisplay (.num 9876543210)) = .ok 9876543210 :=
  format_parse_roundtrip.1 9876543210 rfl

/-- C5 (code bug): on an input whose phone number is invalid (but not
falsy), `validateApplicationData` propagates the strict phone parser's
exception instead of returning the aggregated error list — the `=== null`
check it performs is dead code because the strict parser throws rather
than returning null.  By contrast, `validateUserData` on an equally
invalid phone (plus a too-short name) aggregates all messages as the
spec requires, which shows the application validator's behaviour is a
slip, not a design choice. -/
theorem validateApplicationData_throws_on_invalid_phone :
    ApplicationModel.validateApplicationData fixAppData =
        .error "Invalid Indian phone number. It must be 10 digits and start with 6, 7, 8, or 9." ∧
      UserModel.validateUserData fixUserData =
        ["Name must be between 3 and 30 characters",
          "Invalid Indian phone number. It must be 10 digits and start with 6, 7, 8, or 9."] :=
  ⟨rfl, rfl⟩

/-- C3 (confirmed): `findExisting` returns a stored application only for
the requested (job seeker, job) pair with both deletion flags false, and
it returns a row exactly when such an active row exists — an application
with either flag set never blocks. -/
theorem findExisting_active_iff (db : List AppRow) (s j : Nat) :
    (∀ a, ApplicationModel.findExisting db s j = some a →
      a ∈ db ∧ a.job_seeker_user_id = s ∧ a.job_id = j ∧
        a.deleted_by_job_seeker = false ∧ a.deleted_by_employer = false) ∧
    ((ApplicationModel.findExisting db s j).isSome = true ↔
      ∃ a ∈ db, a.job_seeker_user_id = s ∧ a.job_id = j ∧
        a.deleted_by_job_seeker = false ∧ a.deleted_by_employer = false) := by
  constructor
  · intro a ha
    have hmem := List.mem_of_find?_eq_some ha
    have hp := List.find?_some ha
    simp only [Bool.and_eq_true, beq_iff_eq, Bool.not_eq_true'] at hp
    exact ⟨hmem, hp.1.1.1, hp.1.1.2, hp.1.2, hp.2⟩
  · rw [ApplicationModel.findExisting, List.find?_isSome]
    constructor
    · rintro ⟨a, ha, hp⟩
      simp only [Bool.and_eq_true, beq_iff_eq, Bool.not_eq_true'] at hp
      exact ⟨a, ha, hp.1.1.1, hp.1.1.2, hp.1.2, hp.2⟩
    · rintro ⟨a, ha, h1, h2, h3, h4⟩
      exact ⟨a, ha, by simp [h1, h2, h3, h4]⟩

/-- C3 witness: the theorem applied to the one-row table holding the
fixture application. -/
theorem findExisting_active_iff_witness :
    fixApp ∈ [fixApp] ∧ fixApp.job_seeker_user_id = 2 ∧ fixApp.job_id = 10 ∧
      fixApp.deleted_by_job_seeker = false ∧ fixApp.deleted_by_employer = false :=
  (findExisting_active_iff [fixApp] 2 10).1 fixApp rfl

/-- Mapping a function that fixes every element of a list is the
identity. -/
theorem list_map_id_of {α : Type} (l : List α) (f : α → α) (h : ∀ a ∈ l, f a = a) :
    l.map f = l := by
  induction l with
  | nil => rfl
  | cons x t ih =>
    simp only [List.map_cons]
    rw [h x (by simp), ih (fun a ha => h a (by simp [ha]))]

/-- C10 (confirmed): each soft delete sets only its own deletion flag
(plus the updated-at timestamp) on the rows matching both the
application id and the calling party's user id, leaves every other row
untouched, and when nothing matches it returns the table unchanged with
an absent row. -/
theorem softDelete_frame (db : List AppRow) (i u : Nat) (now : Int) :
    (∀ (n : Nat) (a : AppRow), db[n]? = some a →
      ∃ a', (ApplicationModel.deleteByJobSeeker db i u now).1[n]? = some a' ∧
        (a.id = i ∧ a.job_seeker_user_id = u →
          a' = { a with deleted_by_job_seeker := true, updated_at := now }) ∧
        (¬(a.id = i ∧ a.job_seeker_user_id = u) → a' = a)) ∧
    ((∀ a ∈ db, ¬(a.id = i ∧ a.job_seeker_user_id = u)) →
      ApplicationModel.deleteByJobSeeker db i u now = (db, none)) ∧
    (∀ (n : Nat) (a : AppRow), db[n]? = some a →
      ∃ a', (ApplicationModel.deleteByEmployer db i u now).1[n]? = some a' ∧
        (a.id = i ∧ a.employer_user_id = u →
          a' = { a with deleted_by_employer := true, updated_at := now }) ∧
        (¬(a.id = i ∧ a.employer_user_id = u) → a' = a)) ∧
    ((∀ a ∈ db, ¬(a.id = i ∧ a.employer_user_id = u)) →
      ApplicationModel.deleteByEmployer db i u now = (db, none)) := by
  refine ⟨?_, ?_, ?_, ?_⟩
  · intro n a ha
    simp only [ApplicationModel.deleteByJobSeeker]
    rw [List.getElem?_map, ha, Option.map_some']
    refine ⟨_, rfl, ?_, ?_⟩
    · intro hc
      rw [if_pos (by simp [hc.1, hc.2])]
    · intro hc
      rw [if_neg (by simpa using hc)]
  · intro hnone
    simp only [ApplicationModel.deleteByJobSeeker]
    rw [list_map_id_of db _ (fun a ha => if_neg (by simpa using hnone a ha)),
      List.find?_eq_none.mpr (fun a ha => by simpa using hnone a ha)]
    rfl
  · intro n a ha
    simp only [ApplicationModel.deleteByEmployer]
    rw [List.getElem?_map, ha, Option.map_some']
    refine ⟨_, rfl, ?_, ?_⟩
    · intro hc
      rw [if_pos (by simp [hc.1, hc.2])]
    · intro hc
      rw [if_neg (by simpa using hc)]
  · intro hnone
    simp only [ApplicationModel.deleteByEmployer]
    rw [list_map_id_of db _ (fun a ha => if_neg (by simpa using hnone a ha)),
      List.find?_eq_none.mpr (fun a ha => by simpa using hnone a ha)]
    rfl

/-- C10 witness: deleting the fixture application as its job seeker
flips exactly the job-seeker deletion flag of the stored row. -/
theorem softDelete_frame_witness :
    ((ApplicationModel.deleteByJobSeeker [fixApp] 1 2 77).1[0]?).map
        (fun a => a.deleted_by_job_seeker) = some true := by
  obtain ⟨a', h1, h2, _⟩ := (softDelete_frame [fixApp] 1 2 77).1 0 fixApp rfl
  rw [h1, h2 ⟨rfl, rfl⟩]
  rfl

/-- Membership through the descending-insert step. -/
theorem mem_insertDescBy {α : Type} (key : α → Int) (x a : α) (l : List α) :
    a ∈ insertDescBy key x l ↔ a = x ∨ a ∈ l := by
  induction l with
  | nil => simp [insertDescBy]
  | cons y ys ih =>
    simp only [insertDescBy]
    split
    · simp [List.mem_cons]
    · simp only [List.mem_cons, ih]
      tauto

/-- Sorting for `ORDER BY ... DESC` does not change membership. -/
theorem mem_sortDescBy {α : Type} (key : α → Int) (a : α) (l : List α) :
    a ∈ sortDescBy key l ↔ a ∈ l := by
  induction l with
  | nil => simp [sortDescBy]
  | cons x xs ih =>
    show a ∈ insertDescBy key x (List.foldr (insertDescBy key) [] xs) ↔ _
    rw [mem_insertDescBy]
    rw [show List.foldr (insertDescBy key) [] xs = sortDescBy key xs from rfl, ih]
    simp [List.mem_cons]

/-- Looking up a key other than the removed one is unaffected by
deleting that key from an object. -/
theorem lookup_filter_ne (l : List (String × JSVal)) (k key : String) (hk : k ≠ key) :
    (l.filter (fun kv => kv.1 != key)).lookup k = l.lookup k := by
  induction l with
  | nil => rfl
  | cons f rest ih =>
    obtain ⟨fk, fv⟩ := f
    by_cases hf : fk = key
    · subst hf
      rw [List.filter_cons, if_neg (by simp)]
      rw [ih]
      simp [List.lookup, show (k == fk) = false by simp [hk]]
    · rw [List.filter_cons, if_pos (by simp [hf])]
      by_cases hkf : k = fk
      · subst hkf
        simp [List.lookup]
      · simp [List.lookup, show (k == fk) = false by simp [hkf]]
        exact ih

/-- C7 (confirmed): the response-facing formatter never contains the
password field while the authentication-facing formatter carries the
stored password; every other key looks up identically in both; and the
newsletter subscriber lookup only emits response-formatted (password
free) objects. -/
theorem password_stripping :
    (∀ (u : UserRow) (v : JSVal), ("password", v) ∉ UserModel.formatUserResponse u) ∧
    (∀ u : UserRow, ("password", JSVal.vStr u.password) ∈ UserModel.formatUser u) ∧
    (∀ (u : UserRow) (k : String), k ≠ "password" →
      (UserModel.formatUserResponse u).lookup k = (UserModel.formatUser u).lookup k) ∧
    (∀ users niche o, o ∈ UserModel.findByJobNiche users niche →
      ∀ v : JSVal, ("password", v) ∉ o) := by
  have hnot : ∀ (u : UserRow) (v : JSVal), ("password", v) ∉ UserModel.formatUserResponse u := by
    intro u v hv
    have hm := List.mem_filter.mp hv
    simp at hm
  refine ⟨hnot, ?_, ?_, ?_⟩
  · intro u
    simp [UserModel.formatUser]
  · intro u k hk
    exact lookup_filter_ne (UserModel.formatUser u) k "password" hk
  · intro users niche o ho v
    obtain ⟨u, _, rfl⟩ := List.mem_map.mp ho
    exact hnot u v

/-- C7 witness: the theorem applied at the fixture seeker and the
concrete key `email`. -/
theorem password_stripping_witness :
    (UserModel.formatUserResponse fixSeeker).lookup "email" =
      (UserModel.formatUser fixSeeker).lookup "email" :=
  password_stripping.2.2.1 fixSeeker "email" (by decide)

/-- C8 (confirmed): the newsletter subscriber lookup returns exactly the
response-formatted Job Seeker rows one of whose three niche columns
equals the requested tag under exact string equality (a `NULL` niche
matches nothing). -/
theorem findByJobNiche_exact (users : List UserRow) (t : String)
    (o : List (String × JSVal)) :
    o ∈ UserModel.findByJobNiche users t ↔
      ∃ u ∈ users, u.role = "Job Seeker" ∧
        (u.first_niche = some t ∨ u.second_niche = some t ∨ u.third_niche = some t) ∧
        o = UserModel.formatUserResponse u := by
  unfold UserModel.findByJobNiche UserModel.findByJobNicheRows
  rw [List.mem_map]
  constructor
  · rintro ⟨u, hu, rfl⟩
    rw [mem_sortDescBy] at hu
    have hm := List.mem_filter.mp hu
    obtain ⟨hmem, hp⟩ := hm
    simp only [Bool.and_eq_true, Bool.or_eq_true, beq_iff_eq] at hp
    exact ⟨u, hmem, hp.1, by tauto, rfl⟩
  · rintro ⟨u, hu, hrole, hniche, rfl⟩
    refine ⟨u, ?_, rfl⟩
    rw [mem_sortDescBy, List.mem_filter]
    refine ⟨hu, ?_⟩
    simp only [Bool.and_eq_true, Bool.or_eq_true, beq_iff_eq]
    exact ⟨hrole, by tauto⟩

/-- A column absent from the `SET` list is untouched. -/
theorem applySetList_not_mem (fields : List (String × JSVal)) :
    ∀ (r : RowMap) (k : String), (∀ v, (k, v) ∉ fields) → applySetList r fields k = r k := by
  induction fields with
  | nil => intro r k _; rfl
  | cons f rest ih =>
    intro r k hk
    obtain ⟨fk, fv⟩ := f
    have hne : k ≠ fk := by
      intro he
      subst he
      exact hk fv (by simp)
    show applySetList (setCol r fk fv) rest k = r k
    rw [ih (setCol r fk fv) k (fun v hv => hk v (by simp [hv]))]
    show (if k = fk then fv else r k) = r k
    rw [if_neg hne]

/-- With distinct column names, a column in the `SET` list receives
exactly its listed value. -/
theorem applySetList_mem (fields : List (String × JSVal)) :
    ∀ (r : RowMap) (k : String) (v : JSVal), (fields.map Prod.fst).Nodup →
      (k, v) ∈ fields → applySetList r fields k = v := by
  induction fields with
  | nil => intro r k v _ h; simp at h
  | cons f rest ih =>
    intro r k v hnd hm
    obtain ⟨fk, fv⟩ := f
    simp only [List.map_cons, List.nodup_cons] at hnd
    rcases List.mem_cons.mp hm with heq | hrest
    · rw [Prod.ext_iff] at heq
      obtain ⟨hk1, hv1⟩ := heq
      simp only at hk1 hv1
      subst hk1
      subst hv1
      show applySetList (setCol r k v) rest k = v
      rw [applySetList_not_mem rest (setCol r k v) k
        (fun w hw => absurd (List.mem_map.mpr ⟨(k, w), hw, rfl⟩) hnd.1)]
      show (if k = k then v else r k) = v
      rw [if_pos rfl]
    · show applySetList (setCol r fk fv) rest k = v
      exact ih (setCol r fk fv) k v hnd.2 hrest

/-- The two outcomes of the shared update builder: the thrown condition
on an empty `SET` list (before any statement runs, table unchanged), and
the executed `UPDATE` otherwise. -/
theorem modelUpdateRun_spec (toSnake : String → String) (tr : String → JSVal → JSVal)
    (db : List RowMap) (idv : JSVal) (payload : List (String × JSArg)) (now : JSVal) :
    (applicableFields toSnake tr payload = [] →
      modelUpdateRun toSnake tr db idv payload now = (db, .error "No fields to update")) ∧
    (applicableFields toSnake tr payload ≠ [] →
      ∃ ret, modelUpdateRun toSnake tr db idv payload now =
        (db.map (fun r => if r "id" = idv
            then setCol (applySetList r (applicableFields toSnake tr payload)) "updated_at" now
            else r), Except.ok ret)) := by
  constructor
  · intro h
    simp only [modelUpdateRun]
    rw [h]
    rfl
  · intro h
    simp only [modelUpdateRun]
    rw [if_neg (by simpa [List.isEmpty_iff] using h)]
    exact ⟨_, rfl⟩

/-- C6 (confirmed): the update builders apply exactly the payload fields
whose value is present (`undefined` entries are skipped, explicit nulls
are applied), leave every unnamed column untouched apart from
`updated_at`, leave rows with a different id untouched, and fail with
`No fields to update` — changing no row — when no applicable field
exists.  The user and job builders are the shared builder instantiated
at their conversion tables (the user one hashing a written password). -/
theorem updateById_partial_semantics :
    (∀ (hash : JSVal → JSVal) (db : List RowMap) (idv : JSVal)
        (payload : List (String × JSArg)) (now : JSVal),
      (∀ kv ∈ payload, kv.2 = JSArg.undef) →
      UserModel.updateById hash db idv payload now = (db, .error "No fields to update")) ∧
    (∀ (db : List RowMap) (idv : JSVal) (payload : List (String × JSArg)) (now : JSVal),
      (∀ kv ∈ payload, kv.2 = JSArg.undef) →
      JobModel.updateById db idv payload now = (db, .error "No fields to update")) ∧
    (∀ (payload : List (String × JSArg)) (k : String),
      (k, JSArg.val JSVal.vNull) ∈ payload →
      (JobModel.convertToSnakeCase k, JSVal.vNull) ∈
        applicableFields JobModel.convertToSnakeCase (fun _ v => v) payload) ∧
    (∀ (toSnake : String → String) (tr : String → JSVal → JSVal) (db : List RowMap)
        (idv : JSVal) (payload : List (String × JSArg)) (now : JSVal),
      applicableFields toSnake tr payload ≠ [] →
      ((applicableFields toSnake tr payload).map Prod.fst).Nodup →
      (∀ kv ∈ applicableFields toSnake tr payload, kv.1 ≠ "updated_at") →
      ∀ (n : Nat) (r : RowMap), db[n]? = some r →
        ∃ r', (modelUpdateRun toSnake tr db idv payload now).1[n]? = some r' ∧
          (r "id" ≠ idv → r' = r) ∧
          (r "id" = idv →
            r' "updated_at" = now ∧
            (∀ (k : String) (v : JSVal),
              (k, v) ∈ applicableFields toSnake tr payload → r' k = v) ∧
            (∀ k : String, k ≠ "updated_at" →
              (∀ v, (k, v) ∉ applicableFields toSnake tr payload) → r' k = r k))) ∧
    (∀ hash : JSVal → JSVal, UserModel.updateById hash =
      modelUpdateRun UserModel.convertToSnakeCase
        (fun k v => if k = "password" then hash v else v)) ∧
    (JobModel.updateById = modelUpdateRun JobModel.convertToSnakeCase (fun _ v => v)) := by
  have hempty : ∀ (toSnake : String → String) (tr : String → JSVal → JSVal)
      (payload : List (String × JSArg)), (∀ kv ∈ payload, kv.2 = JSArg.undef) →
      applicableFields toSnake tr payload = [] := by
    intro toSnake tr payload h
    unfold applicableFields
    rw [List.filterMap_eq_nil_iff]
    intro kv hkv
    rw [h kv hkv]
  refine ⟨?_, ?_, ?_, ?_, fun _ => rfl, rfl⟩
  · intro hash db idv payload now h
    exact (modelUpdateRun_spec UserModel.convertToSnakeCase _ db idv payload now).1
      (hempty _ _ payload h)
  · intro db idv payload now h
    exact (modelUpdateRun_spec JobModel.convertToSnakeCase _ db idv payload now).1
      (hempty _ _ payload h)
  · intro payload k hm
    exact List.mem_filterMap.mpr ⟨(k, JSArg.val JSVal.vNull), hm, rfl⟩
  · intro toSnake tr db idv payload now hne hnd hupd n r hr
    obtain ⟨ret, hrun⟩ := (modelUpdateRun_spec toSnake tr db idv payload now).2 hne
    rw [hrun]
    rw [List.getElem?_map, hr, Option.map_some']
    refine ⟨_, rfl, ?_, ?_⟩
    · intro hid
      rw [if_neg hid]
    · intro hid
      rw [if_pos hid]
      refine ⟨?_, ?_, ?_⟩
      · show (if "updated_at" = "updated_at" then now else _) = now
        rw [if_pos rfl]
      · intro k v hkv
        have hkne : k ≠ "updated_at" := hupd (k, v) hkv
        show (if k = "updated_at" then now else applySetList r _ k) = v
        rw [if_neg hkne]
        exact applySetList_mem _ r k v hnd hkv
      · intro k hkne hnotin
        show (if k = "updated_at" then now else applySetList r _ k) = r k
        rw [if_neg hkne]
        exact applySetList_not_mem _ r k hnotin

/-- C6 witness: an all-`undefined` payload fails with the no-fields
condition and an unchanged table, and an explicit-null entry of the
fixture payload is applicable. -/
theorem updateById_partial_semantics_witness :
    JobModel.updateById [fixRowMap] (.vNum 7) [("title", JSArg.undef)] (.vNum 99) =
        ([fixRowMap], .error "No fields to update") ∧
      (JobModel.convertToSnakeCase "title", JSVal.vNull) ∈
        applicableFields JobModel.convertToSnakeCase (fun _ v => v) fixPayload :=
  ⟨updateById_partial_semantics.2.1 [fixRowMap] (.vNum 7) [("title", JSArg.undef)]
      (.vNum 99) (by decide),
    updateById_partial_semantics.2.2.1 fixPayload "title" (by decide)⟩

/-- Membership characterization of the newsletter-candidate query. -/
theorem mem_getJobsForNewsletter (jobs : List JobRow) (users : List UserRow) (now : Int)
    (j : JobRow) :
    j ∈ JobModel.getJobsForNewsletter jobs users now ↔
      j ∈ jobs ∧ j.newsletters_sent = false ∧ now - 24 ≤ j.created_at ∧
        ∃ u ∈ users, u.id = j.posted_by := by
  unfold JobModel.getJobsForNewsletter
  rw [mem_sortDescBy, List.mem_filter]
  simp only [Bool.and_eq_true, Bool.not_eq_true', decide_eq_true_eq, List.any_eq_true,
    beq_iff_eq]
  tauto

/-- C2 (confirmed): with every posting's owner present (the schema's
foreign key), the candidate query returns exactly the postings with the
sent flag false and a creation time within the last 24 hours; a posting
older than the window that was never sent is excluded from the query at
every later time as well. -/
theorem newsletter_candidates_window (jobs : List JobRow) (users : List UserRow) (now : Int)
    (hFK : ∀ j ∈ jobs, ∃ u ∈ users, u.id = j.posted_by) :
    (∀ j, j ∈ JobModel.getJobsForNewsletter jobs users now ↔
      j ∈ jobs ∧ j.newsletters_sent = false ∧ now - 24 ≤ j.created_at) ∧
    (∀ j ∈ jobs, ∀ later : Int, now ≤ later → j.created_at < now - 24 →
      j ∉ JobModel.getJobsForNewsletter jobs users later) := by
  constructor
  · intro j
    rw [mem_getJobsForNewsletter]
    constructor
    · tauto
    · rintro ⟨h1, h2, h3⟩
      exact ⟨h1, h2, h3, hFK j h1⟩
  · intro j _ later hl hstale hmem
    rw [mem_getJobsForNewsletter] at hmem
    obtain ⟨_, _, hwin, _⟩ := hmem
    omega

/-- C2 witness: at the concrete fixture tables, the fresh posting is a
candidate now and the stale one is excluded at a later time. -/
theorem newsletter_candidates_window_witness :
    fixJob ∈ JobModel.getJobsForNewsletter [fixJob, fixJobStale] [fixEmployer, fixSeeker] 100 ∧
      fixJobStale ∉
        JobModel.getJobsForNewsletter [fixJob, fixJobStale] [fixEmployer, fixSeeker] 150 := by
  have h100 := newsletter_candidates_window [fixJob, fixJobStale] [fixEmployer, fixSeeker]
    100 (by decide)
  constructor
  · exact (h100.1 fixJob).mpr ⟨by decide, rfl, by decide⟩
  · exact h100.2 fixJobStale (by decide) 150 (by decide) (by decide)

/-! Lemmas tracking one newsletter run through its per-job fold. -/

/-- Unfolding equation for one step of the cron's per-job loop. -/
theorem processJob_eq (users : List UserRow) (sendOk : Nat → JSVal → Bool) (now : Int)
    (st : List JobRow × List (Nat × JSVal) × List (Nat × JSVal)) (job : JobRow) :
    processJob users sendOk now st job =
      if (UserModel.findByJobNiche users job.job_niche).isEmpty then st
      else (JobModel.markNewsletterSentById st.1 job.id now,
        st.2.1 ++ (UserModel.findByJobNiche users job.job_niche).map
          (fun o => (job.id, emailOf o)),
        st.2.2 ++ ((UserModel.findByJobNiche users job.job_niche).map
          (fun o => (job.id, emailOf o))).filter (fun a => sendOk a.1 a.2)) := rfl

/-- Marking a job sent makes every row with that id carry a true flag. -/
theorem markSent_establishes (l : List JobRow) (id : Nat) (now : Int) :
    ∀ r ∈ JobModel.markNewsletterSentById l id now, r.id = id → r.newsletters_sent = true := by
  intro r hr hid
  obtain ⟨a, ha, rfl⟩ := List.mem_map.mp hr
  by_cases h : a.id = id
  · rw [if_pos h]
  · rw [if_neg h] at hid ⊢
    exact absurd hid h

/-- Marking some job sent preserves "every row with id `i` is flagged". -/
theorem markSent_preserves (l : List JobRow) (id i : Nat) (now : Int)
    (h : ∀ r ∈ l, r.id = i → r.newsletters_sent = true) :
    ∀ r ∈ JobModel.markNewsletterSentById l id now, r.id = i → r.newsletters_sent = true := by
  intro r hr hi
  obtain ⟨a, ha, rfl⟩ := List.mem_map.mp hr
  by_cases hc : a.id = id
  · rw [if_pos hc]
  · rw [if_neg hc] at hi ⊢
    exact h a ha hi

/-- The fold preserves "every row with id `i` is flagged". -/
theorem foldl_processJob_preserves (users : List UserRow) (sendOk : Nat → JSVal → Bool)
    (now : Int) (cands : List JobRow) :
    ∀ (st : List JobRow × List (Nat × JSVal) × List (Nat × JSVal)) (i : Nat),
      (∀ r ∈ st.1, r.id = i → r.newsletters_sent = true) →
      ∀ r ∈ (cands.foldl (processJob users sendOk now) st).1, r.id = i →
        r.newsletters_sent = true := by
  induction cands with
  | nil => intro st i h; exact h
  | cons k rest ih =>
    intro st i h
    simp only [List.foldl_cons]
    apply ih
    rw [processJob_eq]
    by_cases hemp : (UserModel.findByJobNiche users k.job_niche).isEmpty
    · rw [if_pos hemp]
      exact h
    · rw [if_neg hemp]
      exact markSent_preserves st.1 k.id i now h

/-- Entries of the attempted-send log survive the rest of the fold. -/
theorem foldl_processJob_attempts_mono (users : List UserRow) (sendOk : Nat → JSVal → Bool)
    (now : Int) (cands : List JobRow) :
    ∀ (st : List JobRow × List (Nat × JSVal) × List (Nat × JSVal)) (x : Nat × JSVal),
      x ∈ st.2.1 → x ∈ (cands.foldl (processJob users sendOk now) st).2.1 := by
  induction cands with
  | nil => intro st x h; exact h
  | cons k rest ih =>
    intro st x h
    simp only [List.foldl_cons]
    apply ih
    rw [processJob_eq]
    by_cases hemp : (UserModel.findByJobNiche users k.job_niche).isEmpty
    · rw [if_pos hemp]
      exact h
    · rw [if_neg hemp]
      exact List.mem_append_left _ h

/-- Every fetched job with a matched subscriber ends the fold with its
flag set on every row carrying its id. -/
theorem foldl_processJob_marks (users : List UserRow) (sendOk : Nat → JSVal → Bool)
    (now : Int) (cands : List JobRow) :
    ∀ (st : List JobRow × List (Nat × JSVal) × List (Nat × JSVal)) (j : JobRow),
      j ∈ cands → ¬ (UserModel.findByJobNiche users j.job_niche).isEmpty = true →
      ∀ r ∈ (cands.foldl (processJob users sendOk now) st).1, r.id = j.id →
        r.newsletters_sent = true := by
  induction cands with
  | nil => intro st j h; simp at h
  | cons k rest ih =>
    intro st j hj hne r hr hid
    rcases List.mem_cons.mp hj with rfl | hjr
    · simp only [List.foldl_cons] at hr
      refine foldl_processJob_preserves users sendOk now rest _ j.id ?_ r hr hid
      rw [processJob_eq, if_neg hne]
      exact markSent_establishes st.1 j.id now
    · simp only [List.foldl_cons] at hr
      exact ih _ j hjr hne r hr hid

/-- Every matched subscriber of every fetched job gets a send attempt,
whatever the transport does. -/
theorem foldl_processJob_attempts (users : List UserRow) (sendOk : Nat → JSVal → Bool)
    (now : Int) (cands : List JobRow) :
    ∀ (st : List JobRow × List (Nat × JSVal) × List (Nat × JSVal)) (j : JobRow)
        (o : List (String × JSVal)),
      j ∈ cands → o ∈ UserModel.findByJobNiche users j.job_niche →
      (j.id, emailOf o) ∈ (cands.foldl (processJob users sendOk now) st).2.1 := by
  induction cands with
  | nil => intro st j o h; simp at h
  | cons k rest ih =>
    intro st j o hj ho
    rcases List.mem_cons.mp hj with rfl | hjr
    · simp only [List.foldl_cons]
      apply foldl_processJob_attempts_mono
      rw [processJob_eq,
        if_neg (by simp only [List.isEmpty_iff]; exact List.ne_nil_of_mem ho)]
      exact List.mem_append_right _ (List.mem_map.mpr ⟨o, ho, rfl⟩)
    · simp only [List.foldl_cons]
      exact ih _ j o hjr ho

/-- Marking keeps the sequence of row ids. -/
theorem markSent_ids (l : List JobRow) (id : Nat) (now : Int) :
    (JobModel.markNewsletterSentById l id now).map JobRow.id = l.map JobRow.id := by
  unfold JobModel.markNewsletterSentById
  rw [List.map_map]
  apply List.map_congr_left
  intro a _
  by_cases h : a.id = id
  · simp [h]
  · simp [h]

/-- The fold keeps the sequence of row ids. -/
theorem foldl_processJob_ids (users : List UserRow) (sendOk : Nat → JSVal → Bool)
    (now : Int) (cands : List JobRow) :
    ∀ st : List JobRow × List (Nat × JSVal) × List (Nat × JSVal),
      ((cands.foldl (processJob users sendOk now) st).1).map JobRow.id =
        st.1.map JobRow.id := by
  induction cands with
  | nil => intro st; rfl
  | cons k rest ih =>
    intro st
    simp only [List.foldl_cons]
    rw [ih]
    rw [processJob_eq]
    by_cases hemp : (UserModel.findByJobNiche users k.job_niche).isEmpty
    · rw [if_pos hemp]
    · rw [if_neg hemp]
      exact markSent_ids st.1 k.id now

/-- A job none of whose candidates' updates can touch it (distinct ids,
or itself with no matched subscriber) keeps its row unchanged. -/
theorem foldl_processJob_untouched (users : List UserRow) (sendOk : Nat → JSVal → Bool)
    (now : Int) (cands : List JobRow) :
    ∀ (st : List JobRow × List (Nat × JSVal) × List (Nat × JSVal)) (j : JobRow),
      (∀ k ∈ cands, k = j ∨ k.id ≠ j.id) →
      (UserModel.findByJobNiche users j.job_niche).isEmpty = true →
      (∀ r ∈ st.1, r.id = j.id → r = j) →
      ∀ r ∈ (cands.foldl (processJob users sendOk now) st).1, r.id = j.id → r = j := by
  induction cands with
  | nil => intro st j _ _ h; exact h
  | cons k rest ih =>
    intro st j hk hemp hst
    simp only [List.foldl_cons]
    apply ih _ j (fun x hx => hk x (by simp [hx])) hemp
    rcases hk k (by simp) with rfl | hne
    · rw [processJob_eq, if_pos hemp]
      exact hst
    · rw [processJob_eq]
      by_cases he2 : (UserModel.findByJobNiche users k.job_niche).isEmpty
      · rw [if_pos he2]
        exact hst
      · rw [if_neg he2]
        intro r hr hid
        obtain ⟨a, ha, rfl⟩ := List.mem_map.mp hr
        by_cases hc : a.id = k.id
        · rw [if_pos hc] at hid ⊢
          simp only at hid
          exact absurd (hc ▸ hid) hne
        · rw [if_neg hc] at hid ⊢
          exact hst a ha hid

/-- C1 (amended): in one newsletter run, every fetched posting with at
least one matched subscriber ends with its sent flag true — whatever
subset of sends the transport accepts — and every matched subscriber of
every fetched posting receives a send attempt, so one failure blocks
neither the remaining subscribers nor the marking.  A fetched posting
with zero matched subscribers, however, is skipped: its row (flag
included) is left exactly as it was. -/
theorem newsletter_run_spec (jobs : List JobRow) (users : List UserRow)
    (sendOk : Nat → JSVal → Bool) (now : Int)
    (hids : (jobs.map JobRow.id).Nodup) :
    (∀ j ∈ JobModel.getJobsForNewsletter jobs users now,
      UserModel.findByJobNiche users j.job_niche ≠ [] →
      ∀ r ∈ (newsletterTick jobs users sendOk now).jobs, r.id = j.id →
        r.newsletters_sent = true) ∧
    (∀ j ∈ JobModel.getJobsForNewsletter jobs users now,
      ∀ o ∈ UserModel.findByJobNiche users j.job_niche,
        (j.id, emailOf o) ∈ (newsletterTick jobs users sendOk now).attempted) ∧
    (∀ j ∈ JobModel.getJobsForNewsletter jobs users now,
      UserModel.findByJobNiche users j.job_niche = [] →
      j ∈ (newsletterTick jobs users sendOk now).jobs ∧
        ∀ r ∈ (newsletterTick jobs users sendOk now).jobs, r.id = j.id → r = j) := by
  refine ⟨?_, ?_, ?_⟩
  · intro j hj hne r hr hid
    exact foldl_processJob_marks users sendOk now _ (jobs, [], []) j hj
      (by simpa [List.isEmpty_iff] using hne) r hr hid
  · intro j hj o ho
    exact foldl_processJob_attempts users sendOk now _ (jobs, [], []) j o hj ho
  · intro j hj hemp
    have hjj : j ∈ jobs := ((mem_getJobsForNewsletter jobs users now j).mp hj).1
    have hcede : ∀ k ∈ JobModel.getJobsForNewsletter jobs users now, k = j ∨ k.id ≠ j.id := by
      intro k hk
      by_cases he : k.id = j.id
      · exact Or.inl (List.inj_on_of_nodup_map hids
          ((mem_getJobsForNewsletter jobs users now k).mp hk).1 hjj he)
      · exact Or.inr he
    have hinit : ∀ r ∈ jobs, r.id = j.id → r = j := fun r hr hrid =>
      List.inj_on_of_nodup_map hids hr hjj hrid
    have hunt := foldl_processJob_untouched users sendOk now
      (JobModel.getJobsForNewsletter jobs users now) (jobs, [], []) j hcede
      (by simp [List.isEmpty_iff, hemp]) hinit
    constructor
    · have hidseq := foldl_processJob_ids users sendOk now
        (JobModel.getJobsForNewsletter jobs users now) (jobs, [], [])
      have hjid : j.id ∈ ((JobModel.getJobsForNewsletter jobs users now).foldl
          (processJob users sendOk now) (jobs, [], [])).1.map JobRow.id := by
        rw [hidseq]
        exact List.mem_map_of_mem JobRow.id hjj
      obtain ⟨r, hr, hrid⟩ := List.mem_map.mp hjid
      have hrj := hunt r hr hrid
      exact hrj ▸ hr
    · exact hunt

/-- C1 counterexample: a fetched posting with zero matched subscribers
is left unmarked by the run — refuting the claim that the sent flag is
set for every fetched posting including those with no matches. -/
theorem newsletter_run_counterexample :
    fixJobNoMatch ∈
        JobModel.getJobsForNewsletter [fixJobNoMatch] [fixEmployer, fixSeeker] 100 ∧
      UserModel.findByJobNiche [fixEmployer, fixSeeker] fixJobNoMatch.job_niche = [] ∧
      (newsletterTick [fixJobNoMatch] [fixEmployer, fixSeeker]
        (fun _ _ => true) 100).jobs = [fixJobNoMatch] ∧
      fixJobNoMatch.newsletters_sent = false :=
  ⟨by decide, by decide, by decide, rfl⟩

/-- C1 witness: in the fixture run where the transport rejects every
email, the matched subscriber still gets an attempt (and the theorem's
other parts apply at the same instance). -/
theorem newsletter_run_spec_witness :
    (fixJob.id, emailOf (UserModel.formatUserResponse fixSeeker)) ∈
      (newsletterTick [fixJob] [fixEmployer, fixSeeker] (fun _ _ => false) 100).attempted :=
  (newsletter_run_spec [fixJob] [fixEmployer, fixSeeker] (fun _ _ => false) 100
      (by decide)).2.1 fixJob (by decide) (UserModel.formatUserResponse fixSeeker) (by decide)

end JobSphere
